import Mathlib

/-!
Shallow embedding of the SliderCam firmware (`Video_slide_stepper.ino`) and
verification of the specification's claims about it.

Conventions of the embedding:
* The target is an AVR Arduino, where `int` is a 16-bit two's-complement
  integer (the source's use of the `1000L` long literal confirms the author
  was working around 16-bit `int`).  Where a computation can overflow 16
  bits (`getIntFromDigits` on the 6-digit duration field) every `int`
  operation is wrapped with `wrap16`, the mod-2^16 signed reduction.  Where
  values provably stay far below 2^15 (the motion-control quantities: a
  committed distance is at most 1300, so `totalMotorSteps ≤ 6500`), plain
  integers are used.
* `double` arithmetic in the plan computation is exact for the magnitudes
  involved, and is embedded as rational arithmetic (`ℚ`); the implicit
  C conversions double → int / double → unsigned long truncate, which for
  the nonnegative values involved is the floor.
* Hardware input (`analogRead(0)`) is modelled as a stream `adc : ℕ → ℤ`
  giving the value of the n-th read performed by the program.
* The motion-control loop runs concurrently with the `MsTimer2` interrupt,
  which fires every `pulseDelay` milliseconds of timer-enabled time
  (`MsTimer2::start()` resets the phase; `MsTimer2::stop()` freezes it) and
  increments `currentStep`.  The loop is modelled as a deterministic
  small-step relation in which one supervisory iteration costs `eps`
  milliseconds of wall time (its `delay()` calls all happen with the timer
  stopped), and a pending tick is delivered at the end of an iteration once
  `eps` milliseconds of timer-enabled time have accumulated to the pulse
  period.  On the device an iteration (one `analogRead` plus a few
  comparisons) costs far less than a pulse period, so `eps` is constrained
  below or equal to the pulse period in every theorem that runs the loop;
  with `eps` equal to the period the loop observes every counter value
  exactly once, which matches the device, where every counter value is
  observed at least once and repeated observations without an intervening
  tick change nothing (see `motionIter_idle`).  One observable is
  schedule-sensitive: on the device the tick that brings the counter to
  `totalMotorSteps` can land either before or after the final dot check —
  a race — while the model always delivers it after; dot-count theorems
  therefore assert only race-robust content (a lower bound, and exact
  counts only when the dot interval does not divide the total).
* C modulo by zero is undefined behaviour; the model returns the explicit
  exit `RunExit.modByZero` when the source would evaluate `x % 0`.
-/

namespace SliderCam

/-- Constant `MAX_TRAVEL_DISTANCE = 1300` (mm), the mechanical travel limit. -/
def MAX_TRAVEL_DISTANCE : ℤ := 1300

/-- Button identifier constants from the source. -/
def btnUp : ℤ := 0

def btnDn : ℤ := 1

def btnL : ℤ := 2

def btnR : ℤ := 3

def btnSel : ℤ := 4

def btnNone : ℤ := 5

/-- Number of digits of the distance entry field. -/
def NUM_DISTANCE_DIGITS : ℕ := 4

/-- Number of digits of the duration entry field. -/
def NUM_DURATION_DIGITS : ℕ := 6

/-- Number of digits of the steps entry field. -/
def NUM_STEPS_DIGITS : ℕ := 4

/-- `getButtonfromRawData`: maps one raw ADC reading to a button code,
by the threshold chain of the source. -/
def getButtonfromRawData (adcIn : ℤ) : ℤ :=
  if adcIn > 1000 then btnNone
  else if adcIn < 50 then btnR
  else if adcIn < 250 then btnUp
  else if adcIn < 450 then btnDn
  else if adcIn < 650 then btnL
  else if adcIn < 850 then btnSel
  else btnNone

/-- State of the button-reading layer: the `prevButton` global (initially 1
in the source) and the number of `analogRead` calls performed so far, which
indexes into the ADC stream. -/
structure BtnState where
  prevButton : ℤ
  reads : ℕ
  deriving DecidableEq

/-- `readLcdButtons`: returns `prevButton` if the raw reading maps to the
same code, otherwise waits out the debounce time, reads again and stores
and returns the new code. -/
def readLcdButtons (adc : ℕ → ℤ) (s : BtnState) : ℤ × BtnState :=
  let b := getButtonfromRawData (adc s.reads)
  if b = s.prevButton then (s.prevButton, { s with reads := s.reads + 1 })
  else
    let b2 := getButtonfromRawData (adc (s.reads + 1))
    (b2, ⟨b2, s.reads + 2⟩)

/-- Key-click FSM state constant `up_state = 0`. -/
def up_state : ℤ := 0

/-- Key-click FSM state constant `timer_done_state = 1`. -/
def timer_done_state : ℤ := 1

/-- Key-click FSM state constant `wait_for_up_state = 2`. -/
def wait_for_up_state : ℤ := 2

/-- The loop body of `getKeyClick`, as a fuel-bounded recursion over the
FSM state, the candidate `btnVal`, and the button-layer state.  `none`
means the source loop has not returned within `fuel` iterations. -/
def getKeyClickGo (adc : ℕ → ℤ) : ℕ → ℤ → ℤ → BtnState → Option ℤ
  | 0, _, _, _ => none
  | fuel + 1, fsm, btnVal, bs =>
    if fsm = up_state then
      let r := readLcdButtons adc bs
      if r.1 ≠ btnNone then getKeyClickGo adc fuel timer_done_state r.1 r.2
      else getKeyClickGo adc fuel up_state btnVal r.2
    else if fsm = timer_done_state then
      let r := readLcdButtons adc bs
      if r.1 = btnVal then getKeyClickGo adc fuel wait_for_up_state btnVal r.2
      else getKeyClickGo adc fuel up_state btnVal r.2
    else
      let r := readLcdButtons adc bs
      if r.1 = btnNone then some btnVal
      else if r.1 ≠ btnVal then getKeyClickGo adc fuel up_state btnVal r.2
      else getKeyClickGo adc fuel wait_for_up_state btnVal r.2

/-- `getKeyClick`: runs the debounce FSM from `up_state`.  The source's
`btnVal` local is uninitialised at entry; it is unread before first
assignment, so the model passes 0. -/
def getKeyClick (adc : ℕ → ℤ) (fuel : ℕ) (bs : BtnState) : Option ℤ :=
  getKeyClickGo adc fuel up_state 0 bs

/-- Signed 16-bit wrap-around: the value a 16-bit `int` holds after an
arithmetic result `x` (de-facto AVR semantics of overflow). -/
def wrap16 (x : ℤ) : ℤ := (x + 32768) % 65536 - 32768

/-- Loop of `getIntFromDigits`, processing digits from index
`num_digits - 1` down to 0, i.e. over the reversed digit list; `v` is
`value` and `p` is `power`, each operation reduced to 16-bit `int`. -/
def giDigitsGo : List ℤ → ℤ → ℤ → ℤ
  | [], v, _ => v
  | d :: rest, v, p => giDigitsGo rest (wrap16 (v + wrap16 (p * d))) (wrap16 (p * 10))

/-- `getIntFromDigits(digits, num_digits)`: base-10 decode, most
significant digit first, accumulated in a 16-bit `int`.  The list holds
exactly the `num_digits` digits the source indexes. -/
def getIntFromDigits (digits : List ℤ) : ℤ := giDigitsGo digits.reverse 0 1

/-- Mathematical value of a least-significant-digit-first list. -/
def valRev : List ℤ → ℤ
  | [] => 0
  | d :: ds => d + 10 * valRev ds

/-- Mathematical value of a most-significant-digit-first digit list (what
the digit array denotes). -/
def digitsVal (ds : List ℤ) : ℤ := valRev ds.reverse

/-- Least-significant-first base-10 re-encoding of `v` into `n` digits. -/
def encodeRev : ℕ → ℤ → List ℤ
  | 0, _ => []
  | n + 1, v => v % 10 :: encodeRev n (v / 10)

/-- Re-encoding of an integer as `n` zero-padded base-10 digits, most
significant digit first.  This is the spec side of claim C7's round trip
("re-encoding the integer as N zero-padded base-10 digits"); it is not a
source function. -/
def encodeDigits (v : ℤ) (n : ℕ) : List ℤ := (encodeRev n v).reverse

/-- `getDistance` commit step: decode the 4 entered digits and clamp the
result to `MAX_TRAVEL_DISTANCE`. -/
def getDistance (ds : List ℤ) : ℤ :=
  let v := getIntFromDigits ds
  if v > MAX_TRAVEL_DISTANCE then MAX_TRAVEL_DISTANCE else v

/-- Constant `dotSteps = 16`: number of progress dots on the LCD. -/
def dotSteps : ℕ := 16

/-- `totalMotorSteps = currentDistanceInt * 5` (exact in `double`). -/
def totalMotorSteps (d : ℚ) : ℚ := d * 5

/-- `pulseDelay = (1000L * currentDurationInt) / totalMotorSteps`, in ms
(exact in `double`). -/
def pulseDelay (d u : ℚ) : ℚ := 1000 * u / totalMotorSteps d

/-- `intervalDistance = totalMotorSteps / currentStepsInt` with the
`double` quotient truncated by assignment to `int` (floor for the
nonnegative values involved); only computed when `currentStepsInt > 0`. -/
def intervalDistance (d st : ℚ) : ℤ := (totalMotorSteps d / st).floor

/-- `dotDistance = totalMotorSteps / dotSteps` truncated to `int`. -/
def dotDistance (d : ℚ) : ℤ := (totalMotorSteps d / (dotSteps : ℚ)).floor

/-- How the motion-control loop exits in the model. -/
inductive RunExit where
  /-- The do-while condition `currentStep < totalMotorSteps` failed. -/
  | completed : RunExit
  /-- The `readLcdButtons() == btnSel` check broke out of the loop. -/
  | userCancelled : RunExit
  /-- The source evaluated `x % 0` (undefined behaviour in C). -/
  | modByZero : RunExit
  /-- The loop is still running after the model's iteration budget. -/
  | outOfFuel : RunExit
  deriving DecidableEq

/-- State of one motion-control run: the shared counter `currentStep`, the
loop local `prevStep`, the milliseconds accumulated by `MsTimer2` towards
the next tick since the last `start()` (`timerMs`), the number of progress
dots printed, the list of `currentStep` values at which the shutter
trigger fired (in order), the button-layer state, and whether the timer is
currently armed. -/
structure RunSt where
  step : ℕ
  prevStep : ℕ
  timerMs : ℕ
  dots : ℕ
  trigs : List ℕ
  btn : BtnState
  timerOn : Bool
  deriving DecidableEq

/-- Run state at `MsTimer2::start()` (line 225): `currentStep = 0` was just
reset, `prevStep = 0`, the timer phase is fresh, and `prevButton` holds its
initial source value 1. -/
def initRunSt : RunSt := ⟨0, 0, 0, 0, [], ⟨1, 0⟩, true⟩

/-- `stepperDriveUsingTimer`: the `MsTimer2` interrupt handler; pulses the
step line and increments `currentStep`. -/
def stepperDriveUsingTimer (s : RunSt) : RunSt := { s with step := s.step + 1 }

/-- One iteration of the supervisory do-while loop of `motionControl`,
with the pulse period `P`, the iteration wall cost `eps` (both ms), the
globals `dd = dotDistance`, `interval = intervalDistance`,
`st = currentStepsInt`, `total = totalMotorSteps`, and the ADC stream.
Returns `Sum.inl` when the loop exits and `Sum.inr` with the next state
when it continues.  The tick, if its period has elapsed, is delivered at
the end of the iteration, before the do-while test. -/
def motionIter (P eps dd interval st total : ℕ) (adc : ℕ → ℤ) (s : RunSt) :
    (RunExit × RunSt) ⊕ RunSt :=
  let rb := readLcdButtons adc s.btn
  let s1 : RunSt := { s with btn := rb.2 }
  if rb.1 = btnSel then Sum.inl (RunExit.userCancelled, { s1 with timerOn := false })
  else if 0 < st ∧ interval = 0 then Sum.inl (RunExit.modByZero, s1)
  else
    let s2 : RunSt :=
      if 0 < st ∧ s1.step % interval = 0 then
        { s1 with trigs := s1.trigs ++ [s1.step], timerMs := 0 }
      else s1
    if s2.step ≠ s2.prevStep ∧ dd = 0 then Sum.inl (RunExit.modByZero, s2)
    else
      let s3 : RunSt :=
        if s2.step ≠ s2.prevStep then
          { s2 with prevStep := s2.step,
                    dots := s2.dots + (if s2.step % dd = 0 then 1 else 0) }
        else s2
      let t := s3.timerMs + eps
      let s4 : RunSt :=
        if P ≤ t then { stepperDriveUsingTimer s3 with timerMs := t - P }
        else { s3 with timerMs := t }
      if s4.step < total then Sum.inr s4
      else Sum.inl (RunExit.completed, { s4 with timerOn := false })

/-- The do-while loop of `motionControl`, bounded by `fuel` iterations. -/
def runMotionAux (P eps dd interval st total : ℕ) (adc : ℕ → ℤ) :
    ℕ → RunSt → RunExit × RunSt
  | 0, s => (RunExit.outOfFuel, s)
  | fuel + 1, s =>
    match motionIter P eps dd interval st total adc s with
    | Sum.inl r => r
    | Sum.inr s' => runMotionAux P eps dd interval st total adc fuel s'

/-- `motionControl` for committed parameters `d` mm, `u` seconds, `st`
steps: computes the plan exactly as the source does (the pulse period as
truncated by `MsTimer2::set`, `intervalDistance` only when `st > 0` —
otherwise the stale global, 0 at boot, is never read), arms the timer, and
runs the supervisory loop.  `eps` is the model's per-iteration wall cost
and `fuel` the iteration budget. -/
def motionControl (d u st eps : ℕ) (adc : ℕ → ℤ) (fuel : ℕ) : RunExit × RunSt :=
  let total := 5 * d
  let P := 1000 * u / total
  let interval := if 0 < st then total / st else 0
  let dd := total / dotSteps
  runMotionAux P eps dd interval st total adc fuel initRunSt

/-- ADC stream with no button pressed (raw reading above every threshold). -/
def adcNone : ℕ → ℤ := fun _ => 1023

/-- ADC stream with the Select button held down (calibrated reading 741). -/
def adcSelect : ℕ → ℤ := fun _ => 741

/-- ADC stream for one Select press and release: Select's level for the
first three reads, then open line. -/
def adcSelClick : ℕ → ℤ := fun n => if n < 3 then 741 else 1023

/-- Loop state trajectory of the run with distance 100 mm, duration 60 s,
5 steps and no button pressed, after `k ≥ 1` iterations: the counter never
moves off 0, and each iteration has fired the shutter at counter value 0
(`MsTimer2::start()` after the shutter block resets the pulse phase, and
the loop is back at the trigger test in 1 ms of timer-enabled time, far
less than the 120 ms period, so no tick is ever delivered). -/
def c1State (k : ℕ) : RunSt := ⟨0, 0, 1, 0, List.replicate k 0, ⟨5, k + 1⟩, true⟩

/-- Loop state trajectory of a video-mode run (`steps = 0`, poll cost =
pulse period, no button pressed) after `k ≥ 1` iterations: one tick per
iteration, every counter value observed once, one dot per observed
multiple of `dd`. -/
def vState (dd k : ℕ) : RunSt := ⟨k, k - 1, 0, (k - 1) / dd, [], ⟨5, k + 1⟩, true⟩

lemma getButtonfromRawData_range (a : ℤ) :
    0 ≤ getButtonfromRawData a ∧ getButtonfromRawData a ≤ 5 := by
  unfold getButtonfromRawData btnNone btnR btnUp btnDn btnL btnSel
  split <;> [skip; split] <;> [omega; skip; split] <;>
    [omega; skip; split] <;> [omega; skip; split] <;> [omega; skip; split] <;> omega

lemma readLcdButtons_range (adc : ℕ → ℤ) (s : BtnState) :
    0 ≤ (readLcdButtons adc s).1 ∧ (readLcdButtons adc s).1 ≤ 5 := by
  simp only [readLcdButtons]
  split
  · next h => rw [← h]; exact getButtonfromRawData_range _
  · exact getButtonfromRawData_range _

lemma getKeyClickGo_range (adc : ℕ → ℤ) :
    ∀ (fuel : ℕ) (fsm btnVal : ℤ) (bs : BtnState) (b : ℤ),
      (fsm ≠ up_state → 0 ≤ btnVal ∧ btnVal ≤ 4) →
      getKeyClickGo adc fuel fsm btnVal bs = some b → 0 ≤ b ∧ b ≤ 4 := by
  intro fuel
  induction fuel with
  | zero => intro _ _ _ _ _ h; simp [getKeyClickGo] at h
  | succ n ih =>
    intro fsm btnVal bs b hinv h
    unfold getKeyClickGo at h
    by_cases h0 : fsm = up_state
    · rw [if_pos h0] at h
      by_cases hb : (readLcdButtons adc bs).1 ≠ btnNone
      · rw [if_pos hb] at h
        refine ih _ _ _ _ (fun _ => ?_) h
        have := readLcdButtons_range adc bs
        unfold btnNone at hb
        omega
      · rw [if_neg hb] at h
        exact ih _ _ _ _ (fun hc => absurd rfl hc) h
    · rw [if_neg h0] at h
      by_cases h1 : fsm = timer_done_state
      · rw [if_pos h1] at h
        by_cases hb : (readLcdButtons adc bs).1 = btnVal
        · rw [if_pos hb] at h
          refine ih _ _ _ _ (fun _ => hinv h0) h
        · rw [if_neg hb] at h
          exact ih _ _ _ _ (fun hc => absurd rfl hc) h
      · rw [if_neg h1] at h
        by_cases hb : (readLcdButtons adc bs).1 = btnNone
        · rw [if_pos hb] at h
          have hb' := Option.some.inj h
          subst hb'
          exact hinv h0
        · rw [if_neg hb] at h
          by_cases hb2 : (readLcdButtons adc bs).1 ≠ btnVal
          · rw [if_pos hb2] at h
            exact ih _ _ _ _ (fun hc => absurd rfl hc) h
          · rw [if_neg hb2] at h
            exact ih _ _ _ _ (fun _ => hinv h0) h

/-- C10: whenever `getKeyClick` terminates, its return value is one of the
five actual button identifiers (`btnUp`, `btnDn`, `btnL`, `btnR`,
`btnSel`) and never `btnNone`: a completed key-click event always carries
a real button. -/
theorem getKeyClick_returns_real_button (adc : ℕ → ℤ) (fuel : ℕ) (bs : BtnState)
    (b : ℤ) (h : getKeyClick adc fuel bs = some b) :
    b = btnUp ∨ b = btnDn ∨ b = btnL ∨ b = btnR ∨ b = btnSel := by
  have := getKeyClickGo_range adc fuel up_state 0 bs b
    (fun hc => absurd rfl hc) h
  unfold btnUp btnDn btnL btnR btnSel
  omega

/-- Witness for C10: on a concrete press-and-release of Select the key
click completes and the returned value (`btnSel = 4`) is a real button. -/
theorem getKeyClick_returns_real_button_witness :
    (4 : ℤ) = btnUp ∨ (4 : ℤ) = btnDn ∨ (4 : ℤ) = btnL ∨ (4 : ℤ) = btnR ∨ (4 : ℤ) = btnSel :=
  getKeyClick_returns_real_button adcSelClick 10 ⟨1, 0⟩ 4 (by decide)

lemma valRev_nonneg {ds : List ℤ} (h : ∀ d ∈ ds, 0 ≤ d ∧ d ≤ 9) : 0 ≤ valRev ds := by
  induction ds with
  | nil => simp [valRev]
  | cons d t ih =>
    have hd := h d (List.mem_cons_self d t)
    have ht := ih (fun x hx => h x (List.mem_cons_of_mem d hx))
    simp only [valRev]
    omega

lemma valRev_lt {ds : List ℤ} (h : ∀ d ∈ ds, 0 ≤ d ∧ d ≤ 9) :
    valRev ds < 10 ^ ds.length := by
  induction ds with
  | nil => simp [valRev]
  | cons d t ih =>
    have hd := h d (List.mem_cons_self d t)
    have ht := ih (fun x hx => h x (List.mem_cons_of_mem d hx))
    simp only [valRev, List.length_cons, pow_succ]
    omega

lemma wrap16_id {x : ℤ} (h1 : -32768 ≤ x) (h2 : x ≤ 32767) : wrap16 x = x := by
  unfold wrap16
  omega

/-- Value of the `power` accumulator of `getIntFromDigits` after `k` loop
iterations, every multiplication reduced to a 16-bit `int`. -/
def pw : ℕ → ℤ
  | 0 => 1
  | k + 1 => wrap16 (pw k * 10)

lemma pw_eq_pow : ∀ k : ℕ, (10 : ℤ) ^ k ≤ 32767 → pw k = 10 ^ k := by
  intro k
  induction k with
  | zero => intro _; rfl
  | succ n ih =>
    intro h
    have hmono : (10 : ℤ) ^ n ≤ 10 ^ (n + 1) :=
      pow_le_pow_right₀ (by norm_num) (Nat.le_succ n)
    have hpos : (0 : ℤ) ≤ 10 ^ (n + 1) := by positivity
    rw [pw, ih (le_trans hmono h), ← pow_succ]
    exact wrap16_id (by omega) h

lemma giDigitsGo_spec : ∀ (rds : List ℤ) (k : ℕ) (v : ℤ),
    (∀ d ∈ rds, 0 ≤ d ∧ d ≤ 9) → 0 ≤ v →
    v + 10 ^ k * valRev rds ≤ 32767 →
    giDigitsGo rds v (pw k) = v + 10 ^ k * valRev rds := by
  intro rds
  induction rds with
  | nil => intro k v _ _ _; simp [giDigitsGo, valRev]
  | cons d t ih =>
    intro k v hb hv hle
    have hd := hb d (List.mem_cons_self d t)
    have htb : ∀ x ∈ t, 0 ≤ x ∧ x ≤ 9 := fun x hx => hb x (List.mem_cons_of_mem d hx)
    have htv : 0 ≤ valRev t := valRev_nonneg htb
    have hpk : (0 : ℤ) < 10 ^ k := by positivity
    have hexp : v + 10 ^ k * valRev (d :: t) =
        (v + 10 ^ k * d) + 10 ^ (k + 1) * valRev t := by
      simp only [valRev, pow_succ]
      ring
    have hle' : (v + 10 ^ k * d) + 10 ^ (k + 1) * valRev t ≤ 32767 := by
      rw [← hexp]; exact hle
    have hBpos : (0 : ℤ) ≤ 10 ^ (k + 1) * valRev t := by positivity
    have hApos : (0 : ℤ) ≤ 10 ^ k * d := mul_nonneg (le_of_lt hpk) hd.1
    have hvd : 0 ≤ v + 10 ^ k * d := by linarith
    have hvd2 : v + 10 ^ k * d ≤ 32767 := by linarith
    have hstep : wrap16 (v + wrap16 (pw k * d)) = v + 10 ^ k * d := by
      rcases eq_or_lt_of_le hd.1 with h0 | h0
      · rw [← h0, mul_zero, mul_zero, show wrap16 0 = 0 from by decide, add_zero]
        rw [← h0, mul_zero, add_zero] at hvd2
        exact wrap16_id (by linarith) hvd2
      · have hA32 : 10 ^ k * d ≤ 32767 := by linarith
        have hk32 : (10 : ℤ) ^ k ≤ 32767 := by nlinarith
        rw [pw_eq_pow k hk32, wrap16_id (by linarith) hA32,
          wrap16_id (by linarith) hvd2]
    calc giDigitsGo (d :: t) v (pw k)
        = giDigitsGo t (wrap16 (v + wrap16 (pw k * d))) (pw (k + 1)) := rfl
      _ = giDigitsGo t (v + 10 ^ k * d) (pw (k + 1)) := by rw [hstep]
      _ = (v + 10 ^ k * d) + 10 ^ (k + 1) * valRev t := ih (k + 1) _ htb hvd hle'
      _ = v + 10 ^ k * valRev (d :: t) := hexp.symm

lemma getIntFromDigits_eq_digitsVal {ds : List ℤ}
    (hb : ∀ d ∈ ds, 0 ≤ d ∧ d ≤ 9) (hle : digitsVal ds ≤ 32767) :
    getIntFromDigits ds = digitsVal ds := by
  have hb' : ∀ d ∈ ds.reverse, 0 ≤ d ∧ d ≤ 9 := by
    intro d hd
    exact hb d (List.mem_reverse.mp hd)
  have h := giDigitsGo_spec ds.reverse 0 0 hb' le_rfl
    (by simpa [digitsVal] using hle)
  unfold getIntFromDigits digitsVal
  unfold digitsVal at h
  rw [show pw 0 = 1 from rfl] at h
  omega

lemma encodeRev_valRev : ∀ ds : List ℤ, (∀ d ∈ ds, 0 ≤ d ∧ d ≤ 9) →
    encodeRev ds.length (valRev ds) = ds := by
  intro ds
  induction ds with
  | nil => intro _; rfl
  | cons d t ih =>
    intro hb
    have hd := hb d (List.mem_cons_self d t)
    have htb : ∀ x ∈ t, 0 ≤ x ∧ x ≤ 9 := fun x hx => hb x (List.mem_cons_of_mem d hx)
    have htv : 0 ≤ valRev t := valRev_nonneg htb
    have hmod : (d + 10 * valRev t) % 10 = d := by omega
    have hdiv : (d + 10 * valRev t) / 10 = valRev t := by omega
    simp only [List.length_cons, valRev, encodeRev, hmod, hdiv, ih htb]

/-- Round trip on the mathematical digit value: re-encoding the value of a
bounded digit array gives back the array. -/
lemma encodeDigits_digitsVal {ds : List ℤ} (hb : ∀ d ∈ ds, 0 ≤ d ∧ d ≤ 9) :
    encodeDigits (digitsVal ds) ds.length = ds := by
  have hb' : ∀ d ∈ ds.reverse, 0 ≤ d ∧ d ≤ 9 := fun d hd => hb d (List.mem_reverse.mp hd)
  have h := encodeRev_valRev ds.reverse hb'
  unfold encodeDigits digitsVal
  rw [← List.length_reverse, h, List.reverse_reverse]

/-- C7 (amended): for every digit array with entries in `[0, 9]` whose
mathematical value also fits the 16-bit `int` accumulator (value at most
32767), re-encoding `getIntFromDigits` of the array as zero-padded base-10
digits reproduces the array.  Without the 16-bit bound the round trip
fails: see the counterexample. -/
theorem getIntFromDigits_roundtrip (ds : List ℤ)
    (hb : ∀ d ∈ ds, 0 ≤ d ∧ d ≤ 9) (h16 : digitsVal ds ≤ 32767) :
    encodeDigits (getIntFromDigits ds) ds.length = ds := by
  rw [getIntFromDigits_eq_digitsVal hb h16]
  exact encodeDigits_digitsVal hb

/-- Witness for C7 (amended): the 4-digit array `[1, 3, 0, 1]` decodes to
1301 and re-encodes to itself. -/
theorem getIntFromDigits_roundtrip_witness :
    encodeDigits (getIntFromDigits [1, 3, 0, 1]) 4 = [1, 3, 0, 1] :=
  getIntFromDigits_roundtrip [1, 3, 0, 1] (by decide) (by decide)

/-- Counterexample to C7 as stated: on the 6-digit array of nines (a legal
duration entry), the 16-bit `int` accumulator of `getIntFromDigits` wraps:
it returns 16959, not 999999.  16959 fits in 6 digits, yet re-encoding it
as 6 zero-padded digits gives `[0, 1, 6, 9, 5, 9]`, not the original
array. -/
theorem getIntFromDigits_roundtrip_cex :
    getIntFromDigits [9, 9, 9, 9, 9, 9] = 16959 ∧
    (0 : ℤ) ≤ getIntFromDigits [9, 9, 9, 9, 9, 9] ∧
    getIntFromDigits [9, 9, 9, 9, 9, 9] < 10 ^ 6 ∧
    encodeDigits (getIntFromDigits [9, 9, 9, 9, 9, 9]) 6 ≠ [9, 9, 9, 9, 9, 9] := by
  decide

/-- C8: the committed distance never exceeds 1300.  For every 4-digit
distance entry with digits in `[0, 9]`: if the entered array decodes to a
value above `MAX_TRAVEL_DISTANCE = 1300` the committed distance is exactly
1300 (clamped, not rejected), otherwise it is the decoded value; in all
cases it is at most 1300. -/
theorem getDistance_clamps (ds : List ℤ) (hlen : ds.length = NUM_DISTANCE_DIGITS)
    (hb : ∀ d ∈ ds, 0 ≤ d ∧ d ≤ 9) :
    (digitsVal ds > 1300 → getDistance ds = 1300) ∧
    (digitsVal ds ≤ 1300 → getDistance ds = digitsVal ds) ∧
    getDistance ds ≤ 1300 := by
  have hb' : ∀ d ∈ ds.reverse, 0 ≤ d ∧ d ≤ 9 := fun d hd => hb d (List.mem_reverse.mp hd)
  have hlt : digitsVal ds < 10 ^ 4 := by
    have := valRev_lt hb'
    rwa [List.length_reverse, hlen] at this
  have heq : getIntFromDigits ds = digitsVal ds :=
    getIntFromDigits_eq_digitsVal hb (by norm_num at hlt ⊢; omega)
  unfold getDistance MAX_TRAVEL_DISTANCE
  rw [heq]
  refine ⟨fun h => if_pos (by omega), fun h => if_neg (by omega), ?_⟩
  dsimp only
  split <;> omega

/-- Witness for C8: the entry `9999` is clamped to exactly 1300. -/
theorem getDistance_clamps_witness : getDistance [9, 9, 9, 9] = 1300 :=
  (getDistance_clamps [9, 9, 9, 9] (by decide) (by decide)).1 (by decide)

lemma readLcdButtons_none (r : ℕ) :
    readLcdButtons adcNone ⟨5, r⟩ = (5, ⟨5, r + 1⟩) := by
  norm_num [readLcdButtons, adcNone, getButtonfromRawData, btnNone]

lemma c1_iter (k : ℕ) :
    motionIter 120 1 31 100 5 500 adcNone (c1State k) = Sum.inr (c1State (k + 1)) := by
  simp only [motionIter, c1State, readLcdButtons_none]
  norm_num [btnSel, List.replicate_succ']

lemma c1_run : ∀ (j k : ℕ),
    runMotionAux 120 1 31 100 5 500 adcNone j (c1State k) =
      (RunExit.outOfFuel, c1State (k + j)) := by
  intro j
  induction j with
  | zero => intro k; rfl
  | succ n ih =>
    intro k
    rw [runMotionAux, c1_iter]
    dsimp only
    rw [ih (k + 1)]
    congr 2
    omega

/-- C1 fails on the code (code bug): for distance 100 mm, duration 60 s,
5 steps, `intervalMotorSteps` is indeed 100, but the run does not trigger
at 100, 200, 300, 400, 500.  The trigger test `currentStep %
intervalDistance == 0` has no "already fired" guard, so the very first
loop iteration fires the shutter at `currentStep = 0`, and because the
shutter block restarts the timer and the loop is back at the test in far
less than the 120 ms pulse period, every subsequent iteration fires at
`currentStep = 0` again: after any `k + 1` iterations the counter is
still 0, the trigger has fired `k + 1` times, all at counter value 0, and
the run has not completed. -/
theorem c1_trigger_misfire :
    intervalDistance 100 5 = 100 ∧
    ∀ k : ℕ, motionControl 100 60 5 1 adcNone (k + 1) =
      (RunExit.outOfFuel, ⟨0, 0, 1, 0, List.replicate (k + 1) 0, ⟨5, k + 2⟩, true⟩) := by
  constructor
  · norm_num [intervalDistance, totalMotorSteps, Rat.floor_def']
  · intro k
    show runMotionAux 120 1 31 100 5 500 adcNone (k + 1) initRunSt = _
    rw [runMotionAux, show motionIter 120 1 31 100 5 500 adcNone initRunSt =
      Sum.inr (c1State 1) from by decide]
    dsimp only
    rw [c1_run k 1]
    congr 1
    simp [c1State]
    omega

/-- C3 fails on the code (code bug): for duration 0 and steps 0 (distance
at its default 100 mm) the plan is degenerate — `pulseDelay` computes to
0 — yet `motionControl` has no guard at all: it arms the timer
unconditionally (`MsTimer2::set(pulseDelay, ...)` / `start()`, with the
period truncating to 0) and enters the stepping loop, which drives the
motor (after one iteration the counter has already advanced and the timer
is still armed); no configuration error is ever reported — the model has
no refusal path because the source has none. -/
theorem degenerate_plan_still_runs :
    pulseDelay 100 0 = 0 ∧
    motionControl 100 0 0 1 adcNone 1 =
      (RunExit.outOfFuel, ⟨1, 0, 1, 0, [], ⟨5, 2⟩, true⟩) := by
  constructor
  · norm_num [pulseDelay, totalMotorSteps]
  · decide

/-- C4 fails on the code (code bug): with distance 100 mm (500 motor
steps) and steps = 501 > 500 — a committable value — the computed
`intervalDistance = (int)(500.0 / 501.0)` is 0, not ≥ 1, and the very
first loop iteration evaluates `currentStep % intervalDistance` with a
zero divisor: modulo by zero, undefined behaviour, which the model
surfaces as the `modByZero` exit.  (The source's own header comment,
improvement 9, acknowledges the missing guard for a zero
`intervalDistance`.) -/
theorem interval_zero_divides_by_zero :
    intervalDistance 100 501 = 0 ∧
    motionControl 100 60 501 1 adcNone 1 =
      (RunExit.modByZero, ⟨0, 0, 0, 0, [], ⟨5, 2⟩, true⟩) := by
  constructor
  · norm_num [intervalDistance, totalMotorSteps, Rat.floor_def']
  · decide

lemma getButtonfromRawData_sel {a : ℤ} (h1 : 650 ≤ a) (h2 : a < 850) :
    getButtonfromRawData a = btnSel := by
  unfold getButtonfromRawData
  rw [if_neg (by omega), if_neg (by omega), if_neg (by omega), if_neg (by omega),
    if_neg (by omega), if_pos (by omega)]

lemma readLcdButtons_sel {adc : ℕ → ℤ} (h : ∀ n, 650 ≤ adc n ∧ adc n < 850)
    (s : BtnState) : (readLcdButtons adc s).1 = btnSel := by
  simp only [readLcdButtons]
  rw [getButtonfromRawData_sel (h s.reads).1 (h s.reads).2]
  split
  · next heq => rw [← heq]
  · exact getButtonfromRawData_sel (h (s.reads + 1)).1 (h (s.reads + 1)).2

/-- C2: holding the Select button (raw ADC level in Select's band at every
read) terminates the run within one supervisory-loop iteration, from any
run state, with any plan parameters and any remaining fuel — the run
never waits for completion; on that exit the pulse timer is stopped and
the outcome is `userCancelled`, with the motor counter unmoved by that
final iteration. -/
theorem select_cancels_within_one_iteration
    (P eps dd interval st total : ℕ) (adc : ℕ → ℤ) (s : RunSt) (fuel : ℕ)
    (h : ∀ n, 650 ≤ adc n ∧ adc n < 850) :
    (runMotionAux P eps dd interval st total adc (fuel + 1) s).1 = RunExit.userCancelled ∧
    (runMotionAux P eps dd interval st total adc (fuel + 1) s).2.timerOn = false ∧
    (runMotionAux P eps dd interval st total adc (fuel + 1) s).2.step = s.step := by
  have hsel : (readLcdButtons adc s.btn).1 = btnSel := readLcdButtons_sel h s.btn
  have hiter : motionIter P eps dd interval st total adc s =
      Sum.inl (RunExit.userCancelled,
        { s with btn := (readLcdButtons adc s.btn).2, timerOn := false }) := by
    simp only [motionIter]
    rw [if_pos hsel]
  rw [runMotionAux, hiter]
  exact ⟨rfl, rfl, rfl⟩

/-- Witness for C2: a concrete cancelled run — from the initial state of
the 100 mm / 60 s / 5-step plan with Select held (ADC at its calibrated
741), the loop exits immediately as `userCancelled` with the timer off
and the counter still 0. -/
theorem select_cancels_within_one_iteration_witness :
    (runMotionAux 120 1 31 100 5 500 adcSelect 1 initRunSt).1 = RunExit.userCancelled ∧
    (runMotionAux 120 1 31 100 5 500 adcSelect 1 initRunSt).2.timerOn = false ∧
    (runMotionAux 120 1 31 100 5 500 adcSelect 1 initRunSt).2.step = initRunSt.step :=
  select_cancels_within_one_iteration 120 1 31 100 5 500 adcSelect initRunSt 0
    (fun n => by constructor <;> norm_num [adcSelect])

lemma vdots (dd k : ℕ) (hk : 1 ≤ k) :
    (k - 1) / dd + (if k % dd = 0 then 1 else 0) = k / dd := by
  have h1 := Nat.succ_div (k - 1) dd
  rw [Nat.sub_add_cancel hk] at h1
  have h2 : (if dd ∣ k then 1 else 0) = (if k % dd = 0 then 1 else 0) := by
    simp only [Nat.dvd_iff_mod_eq_zero]
  rw [h1, h2]

lemma v_init (P dd interval total : ℕ) (htot : 2 ≤ total) :
    motionIter P P dd interval 0 total adcNone initRunSt = Sum.inr (vState dd 1) := by
  have hrb : readLcdButtons adcNone ⟨1, 0⟩ = (5, ⟨5, 2⟩) := by decide
  simp only [motionIter, initRunSt, hrb]
  norm_num [btnSel, vState, stepperDriveUsingTimer]
  exact fun h => absurd h (by omega)

lemma v_iter_cont (P dd interval total k : ℕ) (hk : 1 ≤ k) (hdd : 1 ≤ dd)
    (hlt : k + 1 < total) :
    motionIter P P dd interval 0 total adcNone (vState dd k) = Sum.inr (vState dd (k + 1)) := by
  simp only [motionIter, vState, readLcdButtons_none]
  norm_num [btnSel, stepperDriveUsingTimer]
  rw [if_neg (show ¬(¬k = k - 1 ∧ dd = 0) from by omega)]
  simp only [if_neg (show ¬k = k - 1 from by omega)]
  rw [if_pos (show k + 1 < total from hlt)]
  simp [vdots dd k hk, Nat.add_sub_cancel]

lemma v_iter_last (P dd interval total k : ℕ) (hk : 1 ≤ k) (hdd : 1 ≤ dd)
    (hlast : k + 1 = total) :
    motionIter P P dd interval 0 total adcNone (vState dd k) =
      Sum.inl (RunExit.completed,
        ⟨total, total - 1, 0, (total - 1) / dd, [], ⟨5, total + 1⟩, false⟩) := by
  simp only [motionIter, vState, readLcdButtons_none]
  norm_num [btnSel, stepperDriveUsingTimer]
  rw [if_neg (show ¬(¬k = k - 1 ∧ dd = 0) from by omega)]
  simp only [if_neg (show ¬k = k - 1 from by omega)]
  rw [if_neg (show ¬(k + 1 < total) from by omega)]
  rw [← hlast]
  simp [vdots dd k hk, Nat.add_sub_cancel]

lemma v_run (P dd interval total : ℕ) (hdd : 1 ≤ dd) :
    ∀ j, 1 ≤ j → ∀ k fuel, 1 ≤ k → k + j = total → j ≤ fuel →
      runMotionAux P P dd interval 0 total adcNone fuel (vState dd k) =
        (RunExit.completed,
          ⟨total, total - 1, 0, (total - 1) / dd, [], ⟨5, total + 1⟩, false⟩) := by
  intro j
  induction j with
  | zero => intro h; omega
  | succ n ih =>
    intro _ k fuel hk hkj hfuel
    obtain ⟨f, rfl⟩ : ∃ f, fuel = f + 1 := ⟨fuel - 1, by omega⟩
    rcases Nat.eq_zero_or_pos n with hn | hn
    · subst hn
      rw [runMotionAux, v_iter_last P dd interval total k hk hdd (by omega)]
    · rw [runMotionAux, v_iter_cont P dd interval total k hk hdd (by omega)]
      dsimp only
      exact ih hn (k + 1) f (by omega) (by omega) (by omega)

/-- Complete description of an uncancelled video-mode run (`steps = 0`, no
button pressed, one poll per pulse period): it completes, the counter
stops exactly at `total`, no shutter trigger ever fires, and one progress
dot is printed for each multiple of `dd` among the observed counter
values `1, ..., total - 1` — that is, `(total - 1) / dd` dots. -/
lemma video_run (P dd interval total fuel : ℕ) (hdd : 1 ≤ dd) (htot : 2 ≤ total)
    (hfuel : total ≤ fuel) :
    runMotionAux P P dd interval 0 total adcNone fuel initRunSt =
      (RunExit.completed,
        ⟨total, total - 1, 0, (total - 1) / dd, [], ⟨5, total + 1⟩, false⟩) := by
  obtain ⟨f, rfl⟩ : ∃ f, fuel = f + 1 := ⟨fuel - 1, by omega⟩
  rw [runMotionAux, v_init P dd interval total htot]
  dsimp only
  exact v_run P dd interval total hdd (total - 1) (by omega) 1 f (by omega) (by omega) (by omega)

/-- Supporting fact for the poll-cost abstraction: a supervisory-loop
iteration in video mode that observes an unchanged counter and reaches no
tick boundary changes nothing except the accumulated timer phase and the
ADC read index — so on the device, where many polls happen per pulse
period, the extra observations are no-ops and the per-value behaviour is
the one captured with one poll per period. -/
lemma motionIter_idle (P eps dd interval total : ℕ) (adc : ℕ → ℤ) (s : RunSt)
    (hb : (readLcdButtons adc s.btn).1 ≠ btnSel) (hst : s.step = s.prevStep)
    (ht : s.timerMs + eps < P) (hlt : s.step < total) :
    motionIter P eps dd interval 0 total adc s =
      Sum.inr { s with btn := (readLcdButtons adc s.btn).2, timerMs := s.timerMs + eps } := by
  simp only [motionIter]
  rw [if_neg hb]
  rw [if_neg (show ¬(0 < 0 ∧ interval = 0) from by omega)]
  rw [if_neg (show ¬(0 < 0 ∧ s.step % interval = 0) from by omega)]
  rw [if_neg (show ¬(¬s.step = s.prevStep ∧ dd = 0) from by omega)]
  simp only [if_neg (show ¬¬s.step = s.prevStep from by omega)]
  rw [if_neg (show ¬(P ≤ s.timerMs + eps) from by omega)]
  rw [if_pos hlt]

/-- C5: for distance 100 mm, duration 10 s, steps 0 (video mode), the plan
has `totalMotorSteps = 500` and `pulseDelay = 20` ms; the uncancelled run
completes with no shutter trigger ever firing (`trigs = []`) and the
supervisory loop terminates exactly when the counter reaches 500 (final
`step = 500`). -/
theorem video_run_default :
    totalMotorSteps 100 = 500 ∧ pulseDelay 100 10 = 20 ∧
    motionControl 100 10 0 20 adcNone 500 =
      (RunExit.completed, ⟨500, 499, 0, 16, [], ⟨5, 501⟩, false⟩) := by
  refine ⟨by norm_num [totalMotorSteps], by norm_num [pulseDelay, totalMotorSteps], ?_⟩
  show runMotionAux 20 20 31 0 0 500 adcNone 500 initRunSt = _
  rw [video_run 20 31 0 500 500 (by norm_num) (by norm_num) le_rfl]

/-- C6 (amended): over every full uncancelled video-mode run with a
nondegenerate plan (distance ≥ 4 mm so that `dotDistance ≥ 1`, pulse
period ≥ 1 ms), one progress marker is emitted per observed multiple of
`dotDistance = totalMotorSteps / dotSteps`: at least
`(totalMotorSteps - 1) / (totalMotorSteps / dotSteps)` markers.  Whether
the final counter value is also dot-checked before the do-while test
exits depends on where the last tick lands relative to that check — a
genuine race on the device, which can add one more marker exactly when
`dotDistance` divides `totalMotorSteps` — so only the race-free lower
bound is asserted in general.  The count is not the display-width
constant 16 in general and can exceed it (see the counterexample); for
the default 100 mm travel it is exactly 16 on every schedule, since the
dot interval 31 does not divide 500. -/
theorem progress_dots_count :
    (∀ d u fuel : ℕ, 4 ≤ d → 1 ≤ 1000 * u / (5 * d) → 5 * d ≤ fuel →
      (motionControl d u 0 (1000 * u / (5 * d)) adcNone fuel).1 = RunExit.completed ∧
      (5 * d - 1) / (5 * d / dotSteps) ≤
        (motionControl d u 0 (1000 * u / (5 * d)) adcNone fuel).2.dots) ∧
    (motionControl 100 10 0 20 adcNone 500).2.dots = dotSteps := by
  constructor
  · intro d u fuel hd _hP hfuel
    have e : motionControl d u 0 (1000 * u / (5 * d)) adcNone fuel =
        runMotionAux (1000 * u / (5 * d)) (1000 * u / (5 * d)) (5 * d / dotSteps) 0 0 (5 * d)
          adcNone fuel initRunSt := rfl
    have hdd : 1 ≤ 5 * d / dotSteps := by
      simp only [dotSteps]
      omega
    rw [e, video_run (1000 * u / (5 * d)) (5 * d / dotSteps) 0 (5 * d) fuel hdd (by omega) hfuel]
    exact ⟨rfl, le_rfl⟩
  · have e2 : motionControl 100 10 0 20 adcNone 500 =
        runMotionAux 20 20 31 0 0 500 adcNone 500 initRunSt := rfl
    rw [e2, video_run 20 31 0 500 500 (by norm_num) (by norm_num) le_rfl]
    norm_num [dotSteps]

/-- Witness for C6 (amended): at 4 mm / 1 s the run completes and emits at
least `(20 - 1) / (20 / 16) = 19` progress markers. -/
theorem progress_dots_count_witness :
    (motionControl 4 1 0 (1000 * 1 / (5 * 4)) adcNone 20).1 = RunExit.completed ∧
    (5 * 4 - 1) / (5 * 4 / dotSteps) ≤
      (motionControl 4 1 0 (1000 * 1 / (5 * 4)) adcNone 20).2.dots :=
  progress_dots_count.1 4 1 20 (by norm_num) (by norm_num) le_rfl

/-- Counterexample to C6 as stated: the full uncancelled 4 mm / 1 s video
run (20 motor steps, `dotDistance = 1`, pulse period 50 ms) completes
having emitted 19 progress markers — not the display-width constant
`dotSteps = 16`, and strictly more than it. -/
theorem progress_dots_cex :
    (motionControl 4 1 0 50 adcNone 25).1 = RunExit.completed ∧
    (motionControl 4 1 0 50 adcNone 25).2.dots = 19 ∧
    dotSteps < (motionControl 4 1 0 50 adcNone 25).2.dots := by
  decide

end SliderCam
